import Mathlib

/-
Verification development for the rumkinst installer-artifact packager.

The Rust sources are shallowly embedded as executable Lean definitions:

* Paths (`std::path::PathBuf`) are modelled as lists of components
  (`List String`).  Rust compares paths component-wise, and a leading `./`
  is kept as a literal `"."` component (as `Path::components` does for a
  leading `CurDir`), so `PathBuf::from("./root/sub") != PathBuf::from("sub")`
  becomes `[".", "root", "sub"] ≠ ["sub"]`.
* A directory tree is the mutual inductive `FSNode`/`DirEntries`.  An entry
  records its name, whether reading the `DirEntry` itself succeeds (the
  `readable` flag, modelling the `Result` items yielded by `read_dir`), and
  the node found at that name.  `FSNode.badDir` is a node for which
  `is_dir()` holds but `read_dir()` fails; `FSNode.special` exists but is
  neither file nor directory (broken symlink, device, socket).
* `read_dir` yields entry paths `dir.join(name)`, i.e. `path ++ [name]`.
* Fallible Rust functions returning `anyhow::Result` become `Except`
  values; each error constructor carries the path its message names.
* The `set_progress_message` side effect of the traversal is modelled by
  returning, next to the `Except` result, the list of paths named by the
  progress messages that were emitted, in emission order.
-/

namespace Rumkinst

abbrev Path := List String

/-- One error constructor per `bail!`/`with_context` site in
`included_files.rs`; each carries the path its message text names. -/
inductive SearchError where
  | readDirFailed (path : Path)
  | readEntryFailed (dirPath : Path)
  | notFileOrDir (path : Path)
  | rootNotExist (path : Path)
  | rootUnexpected (path : Path)
deriving DecidableEq

mutual

/-- A node of the directory tree (what exists at some path). -/
inductive FSNode where
  | file : FSNode
  | dir (entries : DirEntries) : FSNode
  | badDir : FSNode
  | special : FSNode

/-- The listing of a directory, in the order `read_dir` yields it. -/
inductive DirEntries where
  | nil : DirEntries
  | cons (name : String) (readable : Bool) (node : FSNode) (rest : DirEntries) : DirEntries

end

/-- Model of `ExclusionFilter` from `included_files.rs`: a `HashSet<PathBuf>` used
only through `contains`, modelled as the underlying list of paths with
exact-equality membership. -/
structure ExclusionFilter where
  filter : List Path

/-- Model of `impl From<&Vec<PathBuf>> for ExclusionFilter` (`HashSet::from_iter`);
only membership is ever consulted, so the list is kept as given. -/
def ExclusionFilter.fromList (value : List Path) : ExclusionFilter :=
  ⟨value⟩

/-- Model of `IncludedFiles` from `included_files.rs`. -/
structure IncludedFiles where
  files : List Path

abbrev SearchRes := List Path × Except SearchError (List Path)

mutual

/-- Model of `recurse_into` from `included_files.rs`.  For each entry of `path`, in
listing order: a failed entry read aborts naming the containing directory;
an entry whose path is in the filter is skipped with `continue` (before the
progress message is emitted); otherwise the progress message naming the
entry path is emitted and the entry is appended (file), recursed into
(directory), or aborts the search (anything else).  The first component
collects the paths named by the emitted progress messages. -/
def recurse_into : ExclusionFilter → Path → DirEntries → SearchRes
  | _, _, DirEntries.nil => ([], Except.ok [])
  | filter, path, DirEntries.cons name readable node rest =>
    match readable with
    | false => ([], Except.error (SearchError.readEntryFailed path))
    | true =>
      if (path ++ [name]) ∈ filter.filter then recurse_into filter path rest
      else
        match visit_entry filter (path ++ [name]) node with
        | (ms1, Except.error e) => (ms1, Except.error e)
        | (ms1, Except.ok fs1) =>
          let r2 := recurse_into filter path rest
          (ms1 ++ r2.1, (r2.2).map (fun fs2 => fs1 ++ fs2))

/-- The body of the `recurse_into` loop after the filter check: the
progress message for the entry path has been emitted, then the entry is
classified as file / directory / neither. -/
def visit_entry : ExclusionFilter → Path → FSNode → SearchRes
  | _, entryPath, FSNode.file => ([entryPath], Except.ok [entryPath])
  | filter, entryPath, FSNode.dir entries =>
    let r := recurse_into filter entryPath entries
    (entryPath :: r.1, r.2)
  | _, entryPath, FSNode.badDir =>
    ([entryPath], Except.error (SearchError.readDirFailed entryPath))
  | _, entryPath, FSNode.special =>
    ([entryPath], Except.error (SearchError.notFileOrDir entryPath))

end

/-- Model of `visit_dirs` from `included_files.rs` (the `.context` wrapper adds
message text only, which is not modelled). -/
def visit_dirs (path : Path) (filter : ExclusionFilter) (es : DirEntries) : SearchRes :=
  recurse_into filter path es

/-- Model of `PathExplorer` from `included_files.rs`. -/
structure PathExplorer where
  root : Path
  filter : ExclusionFilter

/-- Model of `PathExplorer::search`.  The extra argument is what the filesystem
holds at `self.root` (`none` when the path does not exist).  The Rust code
tests `is_dir()` first (a directory whose `read_dir` fails — `badDir` —
takes that branch and fails inside `visit_dirs`), then `is_file()`, then
`exists()`. -/
def PathExplorer.search (self : PathExplorer) (st : Option FSNode) :
    List Path × Except SearchError IncludedFiles :=
  match st with
  | some (FSNode.dir es) =>
    let r := visit_dirs self.root self.filter es
    (r.1, r.2.map IncludedFiles.mk)
  | some FSNode.badDir =>
    ([], Except.error (SearchError.readDirFailed self.root))
  | some FSNode.file => ([], Except.ok (IncludedFiles.mk [self.root]))
  | some FSNode.special =>
    ([], Except.error (SearchError.rootUnexpected self.root))
  | none => ([], Except.error (SearchError.rootNotExist self.root))

/-- Model of `InternalSourceConfig` from `config.rs` (fields as parsed from TOML;
`RelativePathBuf::into_pathbuf` is the identity on the stored path). -/
structure InternalSourceConfig where
  disable : Option Bool
  path : Option Path
  exclude : Option (List Path)

/-- Model of `SourceConfig` from `config.rs`. -/
structure SourceConfig where
  disable : Bool
  path : Path
  exclude : List Path

/-- Model of `SourceConfig::init`: defaults are filled in, and the `exclude` paths
are taken verbatim from the configuration — they are not joined with the
group's base path. -/
def SourceConfig.init (source : Option InternalSourceConfig) (default_path : Path) :
    SourceConfig :=
  match source with
  | some src =>
    ⟨src.disable.getD false, src.path.getD default_path, src.exclude.getD []⟩
  | none => ⟨false, default_path, []⟩

/-- Model of `search_source` from `installer_gen/mod.rs`: a disabled source yields
`none` without searching; otherwise the filter is built from
`source.exclude()` and `PathExplorer::search` runs on `source.path()`. -/
def search_source (source : SourceConfig) (st : Option FSNode) :
    List Path × Except SearchError (Option IncludedFiles) :=
  if source.disable then ([], Except.ok none)
  else
    let explorer : PathExplorer := ⟨source.path, ExclusionFilter.fromList source.exclude⟩
    let r := explorer.search st
    (r.1, r.2.map some)

/-! ### Archive assembly (`installer_gen/mod.rs`)

The `tar::Builder` is modelled as the ordered list of entries appended so
far (one entry per `append_path` call).  `append_path` can fail at runtime
(file deleted, permission revoked); the oracle `ok : Path → Bool` says
which appends succeed, and a failed append aborts with the failing path,
as the Rust code does.  The `set_progress_message`/`increment_progress`
calls touch only the progress singleton and are not part of this state. -/

/-- Model of `RumkinstFiles` from `installer_gen/mod.rs`. -/
structure RumkinstFiles where
  root_files : Option IncludedFiles
  env_files : Option IncludedFiles
  script_files : Option IncludedFiles

/-- The free function `write_archive` in `installer_gen/mod.rs`: skip a
`None` group, else append every file of the group in stored order,
aborting on the first failed append. -/
def write_archive_group (ok : Path → Bool) (opt : Option IncludedFiles)
    (archive : List Path) : Except Path (List Path) :=
  match opt with
  | none => Except.ok archive
  | some files =>
    List.foldlM
      (fun acc p => if ok p then Except.ok (acc ++ [p]) else Except.error p)
      archive files.files

/-- Model of `RumkinstFiles::write_archive`: the three groups in fixed order —
root, then env, then scripts (`archive.finish()` adds trailing container
padding only and appends no entry). -/
def RumkinstFiles.write_archive (self : RumkinstFiles) (ok : Path → Bool) :
    Except Path (List Path) :=
  Except.bind (write_archive_group ok self.root_files [])
    (fun a1 => Except.bind (write_archive_group ok self.env_files a1)
      (fun a2 => write_archive_group ok self.script_files a2))

/-- Model of `get_files_len` from `installer_gen/mod.rs`. -/
def get_files_len (opt : Option IncludedFiles) : Nat :=
  (opt.map (fun files => files.files.length)).getD 0

/-- Model of `RumkinstFiles::total_files`. -/
def RumkinstFiles.total_files (self : RumkinstFiles) : Nat :=
  get_files_len self.root_files + get_files_len self.env_files
    + get_files_len self.script_files

/-- Effect-free projection of a group used to state entry-order facts. -/
def group_files (opt : Option IncludedFiles) : List Path :=
  (opt.map (fun files => files.files)).getD []

/-! ### Progress singleton (`progress_log.rs`)

`CENTRAL_PROGRESS_WRAPPER` holds `current: RwLock<Option<ProgressBar>>`.
The pipeline is single-threaded, so the state is passed explicitly: a
caller's `logic` closure receives the state (through which
`increment_progress` / `set_progress_message` would act) and returns its
result together with the state it left behind.  A Rust `panic!` is an
explicit outcome, distinct from every ordinary return value. -/

/-- An `indicatif::ProgressBar` reduced to the data this program sets. -/
structure ProgressBar where
  length : Nat
  pos : Nat
  message : String
  finished : Bool

/-- Result of a call that may `panic!` instead of returning. -/
inductive PanicOr (α : Type) where
  | panic (msg : String)
  | ok (val : α)

/-- Model of `progress_wrapper` from `progress_log.rs`: with a bar already current
it panics with the source's message; otherwise it installs a fresh bar of
the given length, runs `logic`, then takes the current bar out and
finishes it, returning the result of `logic` unchanged. -/
def progress_wrapper {α : Type} (current : Option ProgressBar) (length : Nat)
    (logic : Option ProgressBar → α × Option ProgressBar) :
    PanicOr (α × Option ProgressBar) :=
  match current with
  | some _ => PanicOr.panic ("progress bar already in use, cannot initialize another")
  | none =>
    let pb : ProgressBar := ⟨length, 0, "", false⟩
    let res := logic (some pb)
    PanicOr.ok (res.1, none)

/-- Model of `increment_progress`: advance the current bar if one exists. -/
def increment_progress (current : Option ProgressBar) (amount : Nat) :
    Option ProgressBar :=
  match current with
  | some pb => some ⟨pb.length, pb.pos + amount, pb.message, pb.finished⟩
  | none => none

/-- Model of `set_progress_message`: set the current bar's message if one exists. -/
def set_progress_message (current : Option ProgressBar) (msg : String) :
    Option ProgressBar :=
  match current with
  | some pb => some ⟨pb.length, pb.pos, msg, pb.finished⟩
  | none => none

/-! ### SHA-256 (boundary model of the `sha2` crate, FIPS 180-4)

Bytes are naturals below 256.  32-bit words are naturals reduced by
`% 2 ^ 32`.  Rotation is expressed arithmetically: for `x < 2 ^ 32`,
`rotr k x = x / 2 ^ k + (x % 2 ^ k) * 2 ^ (32 - k)` — the two summands
occupy disjoint bit ranges, so `+` coincides with bitwise or. -/

def w32 (n : Nat) : Nat := n % 4294967296

def rotr (k x : Nat) : Nat := w32 (x / 2 ^ k + x % 2 ^ k * 2 ^ (32 - k))

def shr (k x : Nat) : Nat := x / 2 ^ k

/-- Bitwise complement within 32 bits. -/
def bnot32 (x : Nat) : Nat := 4294967295 - w32 x

def ch (x y z : Nat) : Nat := (x &&& y) ^^^ (bnot32 x &&& z)

def maj (x y z : Nat) : Nat := (x &&& y) ^^^ (x &&& z) ^^^ (y &&& z)

def bsig0 (x : Nat) : Nat := rotr 2 x ^^^ rotr 13 x ^^^ rotr 22 x

def bsig1 (x : Nat) : Nat := rotr 6 x ^^^ rotr 11 x ^^^ rotr 25 x

def ssig0 (x : Nat) : Nat := rotr 7 x ^^^ rotr 18 x ^^^ shr 3 x

def ssig1 (x : Nat) : Nat := rotr 17 x ^^^ rotr 19 x ^^^ shr 10 x

/-- The 64 round constants. -/
def sha256K : List Nat :=
  [1116352408, 1899447441, 3049323471, 3921009573,
   961987163, 1508970993, 2453635748, 2870763221,
   3624381080, 310598401, 607225278, 1426881987,
   1925078388, 2162078206, 2614888103, 3248222580,
   3835390401, 4022224774, 264347078, 604807628,
   770255983, 1249150122, 1555081692, 1996064986,
   2554220882, 2821834349, 2952996808, 3210313671,
   3336571891, 3584528711, 113926993, 338241895,
   666307205, 773529912, 1294757372, 1396182291,
   1695183700, 1986661051, 2177026350, 2456956037,
   2730485921, 2820302411, 3259730800, 3345764771,
   3516065817, 3600352804, 4094571909, 275423344,
   430227734, 506948616, 659060556, 883997877,
   958139571, 1322822218, 1537002063, 1747873779,
   1955562222, 2024104815, 2227730452, 2361852424,
   2428436474, 2756734187, 3204031479, 3329325298]

/-- The eight working variables of the hash state. -/
structure Hash8 where
  a : Nat
  b : Nat
  c : Nat
  d : Nat
  e : Nat
  f : Nat
  g : Nat
  h : Nat

def sha256InitH : Hash8 :=
  ⟨1779033703, 3144134277,
   1013904242, 2773480762,
   1359893119, 2600822924,
   528734635, 1541459225⟩

/-- One compression round with round constant and schedule word. -/
def sha256Round (st : Hash8) (kw : Nat × Nat) : Hash8 :=
  let t1 := w32 (st.h + bsig1 st.e + ch st.e st.f st.g + kw.1 + kw.2)
  let t2 := w32 (bsig0 st.a + maj st.a st.b st.c)
  ⟨w32 (t1 + t2), st.a, st.b, st.c, w32 (st.d + t1), st.e, st.f, st.g⟩

/-- One step of message-schedule extension on the reversed (newest-first)
word list. -/
def scheduleStep (rws : List Nat) : List Nat :=
  w32 (ssig1 (rws.getD 1 0) + rws.getD 6 0 + ssig0 (rws.getD 14 0) + rws.getD 15 0)
    :: rws

/-- Extend a 16-word block to the 64-word schedule W₀..W₆₃. -/
def schedule (block : List Nat) : List Nat :=
  ((List.range 48).foldl (fun rws _ => scheduleStep rws) block.reverse).reverse

/-- Process one 512-bit block. -/
def sha256Compress (st0 : Hash8) (block : List Nat) : Hash8 :=
  let st := (List.zip sha256K (schedule block)).foldl sha256Round st0
  ⟨w32 (st0.a + st.a), w32 (st0.b + st.b), w32 (st0.c + st.c), w32 (st0.d + st.d),
   w32 (st0.e + st.e), w32 (st0.f + st.f), w32 (st0.g + st.g), w32 (st0.h + st.h)⟩

/-- The `k` big-endian bytes of `n`. -/
def bytesBE : Nat → Nat → List Nat
  | 0, _ => []
  | k + 1, n => n / 2 ^ (8 * k) % 256 :: bytesBE k n

/-- Merkle–Damgård padding: `0x80`, zeros to 56 mod 64, then the bit
length as 8 big-endian bytes. -/
def padMessage (msg : List Nat) : List Nat :=
  let z := (120 - (msg.length + 1) % 64) % 64
  msg ++ 128 :: (List.replicate z 0 ++ bytesBE 8 (msg.length * 8 % 18446744073709551616))

/-- Big-endian 32-bit words from bytes (input length a multiple of 4). -/
def bytesToWords : List Nat → List Nat
  | b0 :: b1 :: b2 :: b3 :: rest =>
    (((b0 % 256 * 256 + b1 % 256) * 256 + b2 % 256) * 256 + b3 % 256)
      :: bytesToWords rest
  | _ => []

/-- Split a word list into 16-word blocks (input length a multiple of 16). -/
def toBlocks : List Nat → List (List Nat)
  | w0 :: w1 :: w2 :: w3 :: w4 :: w5 :: w6 :: w7 ::
      w8 :: w9 :: w10 :: w11 :: w12 :: w13 :: w14 :: w15 :: rest =>
    [w0, w1, w2, w3, w4, w5, w6, w7, w8, w9, w10, w11, w12, w13, w14, w15]
      :: toBlocks rest
  | _ => []

/-- SHA-256 of a byte sequence, as the final eight-word state. -/
def sha256Words (msg : List Nat) : Hash8 :=
  (toBlocks (bytesToWords (padMessage msg))).foldl sha256Compress sha256InitH

/-- The four big-endian bytes of a 32-bit word. -/
def wordBytes (x : Nat) : List Nat :=
  [x / 16777216 % 256, x / 65536 % 256, x / 256 % 256, x % 256]

/-- SHA-256 digest as its 32 bytes. -/
def sha256Bytes (msg : List Nat) : List Nat :=
  let st := sha256Words msg
  wordBytes st.a ++ wordBytes st.b ++ wordBytes st.c ++ wordBytes st.d ++
    wordBytes st.e ++ wordBytes st.f ++ wordBytes st.g ++ wordBytes st.h

def hexAlphabet : List Char := ("0123456789abcdef" : String).data

def hexDigit (n : Nat) : Char :=
  match n with
  | 0 => '0' | 1 => '1' | 2 => '2' | 3 => '3'
  | 4 => '4' | 5 => '5' | 6 => '6' | 7 => '7'
  | 8 => '8' | 9 => '9' | 10 => 'a' | 11 => 'b'
  | 12 => 'c' | 13 => 'd' | 14 => 'e' | 15 => 'f'
  | _ => '0'

/-- One byte in `:02x` form, as Rust's `LowerHex` prints each byte. -/
def hexByte (b : Nat) : List Char := [hexDigit (b / 16 % 16), hexDigit (b % 16)]

/-- The text of the formatted digest: each digest byte as two lowercase hex
digits. -/
def hexOfBytes (bs : List Nat) : List Char := bs.flatMap hexByte

/-! ### `make_archive` and the archive phase of `command_make` (`main.rs`)

The run-unique output directory is a list of named files.  The gzip/tar
byte stream produced by `flate2` + `tar` is outside this repository, so it
is abstracted by an oracle `encode` mapping the (ordered) entry list to
the finished archive file's bytes; `partialBytes` is whatever the file
holds when the archive write or the gzip `finish` fails mid-way.  The
remaining oracles say whether gzip `finish`, the rewind `seek`, the
`io::copy` into the hasher, and the checksum `write_fmt` succeed. -/

/-- Contents of a file in the output directory. -/
inductive FileData where
  | bytes (bs : List Nat)
  | text (cs : List Char)
deriving DecidableEq

abbrev OutFS := List (String × FileData)

/-- Whether `File::create_new` fails: the name already exists. -/
def containsName (fs : OutFS) (n : String) : Bool :=
  fs.any (fun e => e.1 == n)

/-- Replace the contents of the file named `n`. -/
def setFile (fs : OutFS) (n : String) (d : FileData) : OutFS :=
  fs.map (fun e => if e.1 == n then (n, d) else e)

/-- The two literal spaces of `"{digest:x}  {archive_name}"`. -/
def twoSpaces : List Char := [' ', ' ']

/-- One constructor per `context` site of `make_archive` in `main.rs`. -/
inductive MakeError where
  | createArchiveFailed (name : String)
  | createChecksumFailed (name : String)
  | writeArchiveFailed (p : Path)
  | finishFailed
  | seekFailed
  | copyFailed
  | writeChecksumFailed (name : String)
deriving DecidableEq

/-- Oracles for the external I/O of `make_archive`. -/
structure GzEnv where
  encode : List Path → List Nat
  partialBytes : List Nat
  finishOk : Bool
  seekOk : Bool
  copyOk : Bool
  writeChecksumOk : Bool

/-- Model of `make_archive` from `main.rs`, step for step: create the archive file
(create-new), create the checksum file (create-new) — both before any
archive content is written — then stream the entries through the gzip
encoder into the archive file, `finish` the encoder, seek the archive file
back to its start, hash its full contents, and write
`"<hex digest>  <archive name>"` (two literal spaces, no trailing
separator) into the checksum file.  No cleanup happens on any error
path. -/
def make_archive (cfgName : String) (all_files : RumkinstFiles) (ok : Path → Bool)
    (env : GzEnv) (out_dir : OutFS) : OutFS × Except MakeError Unit :=
  let archive_name := cfgName ++ ".tar.gz"
  let checksum_name := archive_name ++ ".sha256"
  if containsName out_dir archive_name then
    (out_dir, Except.error (MakeError.createArchiveFailed archive_name))
  else
    let fs1 := out_dir ++ [(archive_name, FileData.bytes [])]
    if containsName fs1 checksum_name then
      (fs1, Except.error (MakeError.createChecksumFailed checksum_name))
    else
      let fs2 := fs1 ++ [(checksum_name, FileData.text [])]
      match all_files.write_archive ok with
      | Except.error p =>
        (setFile fs2 archive_name (FileData.bytes env.partialBytes),
         Except.error (MakeError.writeArchiveFailed p))
      | Except.ok entries =>
        if env.finishOk then
          let fs3 := setFile fs2 archive_name (FileData.bytes (env.encode entries))
          if env.seekOk then
            if env.copyOk then
              let digest := hexOfBytes (sha256Bytes (env.encode entries))
              if env.writeChecksumOk then
                (setFile fs3 checksum_name
                   (FileData.text (digest ++ twoSpaces ++ archive_name.data)),
                 Except.ok ())
              else (fs3, Except.error (MakeError.writeChecksumFailed checksum_name))
            else (fs3, Except.error MakeError.copyFailed)
          else (fs3, Except.error MakeError.seekFailed)
        else
          (setFile fs2 archive_name (FileData.bytes env.partialBytes),
           Except.error MakeError.finishFailed)

/-- The archive step of `command_make` in `main.rs`: with at least one
discovered file, run `make_archive`; with zero files, skip it (an
informational log line only) and succeed. -/
def archive_phase (cfgName : String) (all_files : RumkinstFiles) (ok : Path → Bool)
    (env : GzEnv) (out_dir : OutFS) : OutFS × Except MakeError Unit :=
  if all_files.total_files > 0 then make_archive cfgName all_files ok env out_dir
  else (out_dir, Except.ok ())

/-! ### Auxiliary predicates used in theorem statements -/

/-- Path `p` is an ancestor-or-self of `q` (component-wise path ordering). -/
def pathLE (p q : Path) : Prop := ∃ s, p ++ s = q

/-- Path `p` is a strict ancestor of `q`: `q` is a descendant of `p`. -/
def pathLT (p q : Path) : Prop := ∃ s, s ≠ [] ∧ p ++ s = q

/-- Whether an `Except` is the error case. -/
def isErr {ε α : Type} : Except ε α → Bool
  | Except.error _ => true
  | Except.ok _ => false

mutual

/-- A traversal of these entries reaches (not cut off by the filter) an
unreadable entry, an unreadable directory, or a node that is neither file
nor directory — the conditions under which `recurse_into` fails. -/
def badVisit : ExclusionFilter → Path → DirEntries → Bool
  | _, _, DirEntries.nil => false
  | filter, path, DirEntries.cons name readable node rest =>
    match readable with
    | false => true
    | true =>
      if (path ++ [name]) ∈ filter.filter then badVisit filter path rest
      else badNode filter (path ++ [name]) node || badVisit filter path rest

/-- The per-node part of `badVisit`. -/
def badNode : ExclusionFilter → Path → FSNode → Bool
  | _, _, FSNode.file => false
  | filter, entryPath, FSNode.dir entries => badVisit filter entryPath entries
  | _, _, FSNode.badDir => true
  | _, _, FSNode.special => true

end

mutual

/-- Variant of `recurse_into` with the progress-message emission deleted and nothing
else changed: the comparison point for the claim that emission has no
effect on the returned file list. -/
def recurse_into_files : ExclusionFilter → Path → DirEntries → Except SearchError (List Path)
  | _, _, DirEntries.nil => Except.ok []
  | filter, path, DirEntries.cons name readable node rest =>
    match readable with
    | false => Except.error (SearchError.readEntryFailed path)
    | true =>
      if (path ++ [name]) ∈ filter.filter then recurse_into_files filter path rest
      else
        match visit_entry_files filter (path ++ [name]) node with
        | Except.error e => Except.error e
        | Except.ok fs1 =>
          (recurse_into_files filter path rest).map (fun fs2 => fs1 ++ fs2)

/-- Variant of `visit_entry` with the progress-message emission deleted. -/
def visit_entry_files : ExclusionFilter → Path → FSNode → Except SearchError (List Path)
  | _, entryPath, FSNode.file => Except.ok [entryPath]
  | filter, entryPath, FSNode.dir entries => recurse_into_files filter entryPath entries
  | _, entryPath, FSNode.badDir => Except.error (SearchError.readDirFailed entryPath)
  | _, entryPath, FSNode.special => Except.error (SearchError.notFileOrDir entryPath)

end

mutual

/-- Whether `cp` is the path of a directory entry that the traversal of
these entries reaches and that passes the exclusion filter — the entries
for which the loop body runs past the `continue`.  Defined from the tree,
the filter, readability and `badNode` alone (no reference to the emitted
messages): an unreadable entry stops the walk with no path of its own; an
excluded entry is skipped but the walk continues; a reached, non-excluded
entry is visited, then its subtree, and the remaining siblings only when
processing the entry did not abort (`badNode` is `false`). -/
def visitsEntries : ExclusionFilter → Path → DirEntries → Path → Bool
  | _, _, DirEntries.nil, _ => false
  | f, p, DirEntries.cons name readable node rest, cp =>
    match readable with
    | false => false
    | true =>
      if (p ++ [name]) ∈ f.filter then visitsEntries f p rest cp
      else
        (cp == p ++ [name]) || visitsNode f (p ++ [name]) node cp
          || (!badNode f (p ++ [name]) node && visitsEntries f p rest cp)

/-- The paths visited inside one already-visited entry: a file, an
unreadable directory and a special node have no further visits of their
own; a readable directory contributes the visits of its listing. -/
def visitsNode : ExclusionFilter → Path → FSNode → Path → Bool
  | _, _, FSNode.file, _ => false
  | f, entryPath, FSNode.dir entries, cp => visitsEntries f entryPath entries cp
  | _, _, FSNode.badDir, _ => false
  | _, _, FSNode.special, _ => false

end

/-! ### Concrete inputs used by witnesses and counterexamples -/

/-- Listing `{a (file), x (dir containing c)}`. -/
def exTreeAX : DirEntries :=
  DirEntries.cons ("a") true FSNode.file
    (DirEntries.cons ("x") true
      (FSNode.dir (DirEntries.cons ("c") true FSNode.file DirEntries.nil))
      DirEntries.nil)

/-- Listing `{a (file)}`. -/
def exTreeA : DirEntries :=
  DirEntries.cons ("a") true FSNode.file DirEntries.nil

/-- Listing `{a (file), x (file)}`. -/
def exTreeAXFiles : DirEntries :=
  DirEntries.cons ("a") true FSNode.file
    (DirEntries.cons ("x") true FSNode.file DirEntries.nil)

/-- The spec's example source tree `{a.txt, sub/b.txt, sub/c.txt}`. -/
def exTreeSpecSub : FSNode :=
  FSNode.dir
    (DirEntries.cons ("a.txt") true FSNode.file
      (DirEntries.cons ("sub") true
        (FSNode.dir
          (DirEntries.cons ("b.txt") true FSNode.file
            (DirEntries.cons ("c.txt") true FSNode.file DirEntries.nil)))
        DirEntries.nil))

/-- A benign I/O oracle: every external step succeeds. -/
def exEnv : GzEnv := ⟨fun _ => [], [7], true, true, true, true⟩

/-! ## Theorems -/

theorem append_cancel_left_path : ∀ (p u v : List String), p ++ u = p ++ v → u = v := by
  intro p u v h
  induction p with
  | nil => exact h
  | cons a p ih =>
    injection h with _ h2
    exact ih h2

theorem pathLE_refl (p : Path) : pathLE p p := ⟨[], List.append_nil p⟩

theorem pathLE_antisymm {p q : Path} (h1 : pathLE p q) (h2 : pathLE q p) : p = q := by
  obtain ⟨s, hs⟩ := h1
  obtain ⟨t, ht⟩ := h2
  rw [← hs, List.append_assoc] at ht
  have h0 : p ++ (s ++ t) = p ++ [] := by rw [ht, List.append_nil]
  have h3 := append_cancel_left_path p (s ++ t) [] h0
  have h4 : s = [] := (List.append_eq_nil.mp h3).1
  rw [← hs, h4, List.append_nil]

/-- C8: if the base path is a single file, `search` returns exactly that
one path and never consults the exclusion filter — the result is the same
for every filter, including any filter whose set contains the base path
itself. -/
theorem search_single_file_ignores_filter (explorer : PathExplorer) :
    explorer.search (some FSNode.file) = ([], Except.ok (IncludedFiles.mk [explorer.root])) :=
  rfl

/-- C4: calling `progress_wrapper` while a progress bar is already current
panics with the source's message — a fatal abort, not an ordinary return —
so no second session is queued and the first is not overwritten. -/
theorem progress_wrapper_rejects_second_session {α : Type} (pb : ProgressBar)
    (length : Nat) (logic : Option ProgressBar → α × Option ProgressBar) :
    progress_wrapper (some pb) length logic
      = PanicOr.panic ("progress bar already in use, cannot initialize another") :=
  rfl

theorem write_archive_group_all_ok (ok : Path → Bool) :
    ∀ (l : List Path) (acc : List Path), (∀ p ∈ l, ok p = true) →
      List.foldlM (fun acc p => if ok p then Except.ok (acc ++ [p]) else Except.error p)
        acc l = Except.ok (acc ++ l) := by
  intro l
  induction l with
  | nil => intro acc _; rw [List.append_nil]; rfl
  | cons p l ih =>
    intro acc h
    have hp : ok p = true := h p (List.mem_cons_self p l)
    have hrest : ∀ q ∈ l, ok q = true := fun q hq => h q (List.mem_cons_of_mem p hq)
    simp only [List.foldlM, hp, if_true]
    rw [show ((Except.ok (acc ++ [p]) : Except Path (List Path)) >>= fun s =>
        List.foldlM (fun acc p => if ok p then Except.ok (acc ++ [p]) else Except.error p) s l)
      = List.foldlM (fun acc p => if ok p then Except.ok (acc ++ [p]) else Except.error p)
          (acc ++ [p]) l from rfl]
    rw [ih (acc ++ [p]) hrest, List.append_assoc]
    rfl

theorem write_archive_group_eq (ok : Path → Bool) (opt : Option IncludedFiles)
    (acc : List Path) (h : ∀ p ∈ group_files opt, ok p = true) :
    write_archive_group ok opt acc = Except.ok (acc ++ group_files opt) := by
  cases opt with
  | none => simp [write_archive_group, group_files]
  | some files =>
    simpa [write_archive_group, group_files] using
      write_archive_group_all_ok ok files.files acc (by simpa [group_files] using h)

/-- C2: when every append succeeds, `write_archive` appends exactly one
entry per discovered file, in the fixed order root group, then env group,
then scripts group, each group in its stored order; an absent (disabled)
group contributes no entries. -/
theorem write_archive_entry_order (all_files : RumkinstFiles) (ok : Path → Bool)
    (h : ∀ p ∈ group_files all_files.root_files ++ group_files all_files.env_files
        ++ group_files all_files.script_files, ok p = true) :
    all_files.write_archive ok
      = Except.ok (group_files all_files.root_files ++ group_files all_files.env_files
          ++ group_files all_files.script_files) := by
  have hroot : ∀ p ∈ group_files all_files.root_files, ok p = true := by
    intro p hp; exact h p (by simp [hp])
  have henv : ∀ p ∈ group_files all_files.env_files, ok p = true := by
    intro p hp; exact h p (by simp [hp])
  have hscript : ∀ p ∈ group_files all_files.script_files, ok p = true := by
    intro p hp; exact h p (by simp [hp])
  unfold RumkinstFiles.write_archive
  rw [write_archive_group_eq ok all_files.root_files [] hroot]
  simp only [List.nil_append, Except.bind]
  rw [write_archive_group_eq ok all_files.env_files _ henv]
  simp only [Except.bind]
  rw [write_archive_group_eq ok all_files.script_files _ hscript]

theorem write_archive_entry_order_witness :
    (∀ p ∈ group_files (some (IncludedFiles.mk [["r"]]))
        ++ group_files (none : Option IncludedFiles)
        ++ group_files (some (IncludedFiles.mk [["s1"], ["s2"]])),
      (fun _ => true : Path → Bool) p = true)
    ∧ RumkinstFiles.write_archive
        ⟨some (IncludedFiles.mk [["r"]]), none, some (IncludedFiles.mk [["s1"], ["s2"]])⟩
        (fun _ => true)
      = Except.ok (group_files (some (IncludedFiles.mk [["r"]]))
          ++ group_files (none : Option IncludedFiles)
          ++ group_files (some (IncludedFiles.mk [["s1"], ["s2"]]))) :=
  ⟨by decide,
   write_archive_entry_order
     ⟨some (IncludedFiles.mk [["r"]]), none, some (IncludedFiles.mk [["s1"], ["s2"]])⟩
     (fun _ => true) (by decide)⟩

/-- C9: with zero files discovered across the three groups, the archive
step of `command_make` creates no archive file and no checksum file —
the output directory is untouched — and still completes successfully. -/
theorem zero_files_skips_archive (cfgName : String) (all_files : RumkinstFiles)
    (ok : Path → Bool) (env : GzEnv) (out_dir : OutFS)
    (h : all_files.total_files = 0) :
    archive_phase cfgName all_files ok env out_dir = (out_dir, Except.ok ()) := by
  unfold archive_phase
  rw [h]
  simp

theorem zero_files_skips_archive_witness :
    RumkinstFiles.total_files ⟨none, none, none⟩ = 0
    ∧ archive_phase ("pkg") ⟨none, none, none⟩ (fun _ => true) exEnv []
        = ([], Except.ok ()) :=
  ⟨by decide,
   zero_files_skips_archive ("pkg") ⟨none, none, none⟩ (fun _ => true) exEnv [] (by decide)⟩

theorem map_mk_ok (r : Except SearchError (List Path)) (fs : List Path)
    (h : r.map IncludedFiles.mk = Except.ok (IncludedFiles.mk fs)) :
    r = Except.ok fs := by
  cases r with
  | error e => simp [Except.map] at h
  | ok a =>
    simp only [Except.map, Except.ok.injEq, IncludedFiles.mk.injEq] at h
    rw [h]

mutual

theorem recurse_ok_sound : ∀ (f : ExclusionFilter) (p : Path) (es : DirEntries)
    (fs : List Path), (recurse_into f p es).2 = Except.ok fs →
    ∀ q ∈ fs, pathLT p q ∧ (∀ x ∈ f.filter, pathLT p x → pathLE x q → False)
  | f, p, DirEntries.nil, fs => by
    intro h q hq
    simp only [recurse_into, Except.ok.injEq] at h
    subst h
    simp at hq
  | f, p, DirEntries.cons name readable node rest, fs => by
    cases readable with
    | false =>
      intro h
      simp [recurse_into] at h
    | true =>
      intro h q hq
      by_cases hmem : (p ++ [name]) ∈ f.filter
      · simp only [recurse_into, if_pos hmem] at h
        exact recurse_ok_sound f p rest fs h q hq
      · simp only [recurse_into, if_neg hmem] at h
        rcases hve : visit_entry f (p ++ [name]) node with ⟨ms1, r1⟩
        rw [hve] at h
        cases r1 with
        | error e => simp at h
        | ok fs1 =>
          simp only [Except.map] at h
          rcases hr2 : (recurse_into f p rest).2 with e2 | fs2
          · rw [hr2] at h
            simp at h
          · rw [hr2] at h
            simp only [Except.ok.injEq] at h
            subst h
            rcases List.mem_append.mp hq with hq1 | hq2
            · have hent := entry_ok_sound f (p ++ [name]) node fs1 hmem
                (by rw [hve]) q hq1
              obtain ⟨⟨s, hs⟩, hprot⟩ := hent
              constructor
              · exact ⟨name :: s, by simp,
                  by rw [← hs, List.append_assoc, List.singleton_append]⟩
              · rintro x hx ⟨t, htne, hpt⟩ ⟨w, hw⟩
                have hq3 : p ++ (t ++ w) = p ++ (name :: s) := by
                  rw [← List.append_assoc, hpt, hw, ← hs, List.append_assoc,
                    List.singleton_append]
                have htw := append_cancel_left_path p _ _ hq3
                cases t with
                | nil => exact htne rfl
                | cons a t2 =>
                  injection htw with h1 h2
                  subst h1
                  refine hprot x hx ⟨t2, ?_⟩ ⟨w, hw⟩
                  rw [List.append_assoc]
                  exact hpt
            · exact recurse_ok_sound f p rest fs2 hr2 q hq2

theorem entry_ok_sound : ∀ (f : ExclusionFilter) (entryPath : Path) (node : FSNode)
    (fs : List Path), entryPath ∉ f.filter →
    (visit_entry f entryPath node).2 = Except.ok fs →
    ∀ q ∈ fs, pathLE entryPath q
      ∧ (∀ x ∈ f.filter, pathLE entryPath x → pathLE x q → False)
  | f, ep, FSNode.file, fs => by
    intro hnm h q hq
    simp only [visit_entry, Except.ok.injEq] at h
    subst h
    have hqe := List.mem_singleton.mp hq
    subst hqe
    refine ⟨pathLE_refl q, ?_⟩
    rintro x hx h1 h2
    have hxe : q = x := pathLE_antisymm h1 h2
    exact hnm (hxe ▸ hx)
  | f, ep, FSNode.dir entries, fs => by
    intro hnm h q hq
    simp only [visit_entry] at h
    have hmain := recurse_ok_sound f ep entries fs h q hq
    obtain ⟨⟨s, hsne, hs⟩, hprot⟩ := hmain
    refine ⟨⟨s, hs⟩, ?_⟩
    rintro x hx ⟨t, ht⟩ hxq
    cases t with
    | nil =>
      rw [List.append_nil] at ht
      exact hnm (ht ▸ hx)
    | cons a t2 =>
      exact hprot x hx ⟨a :: t2, by simp, ht⟩ hxq
  | f, ep, FSNode.badDir, fs => by
    intro hnm h
    simp [visit_entry] at h
  | f, ep, FSNode.special, fs => by
    intro hnm h
    simp [visit_entry] at h

end

/-- C1 (amended): a successful `search` on a directory base returns no
path that is itself in the exclusion set, and no descendant of any
directory *strictly below the base* whose exact path is in the exclusion
set.  (The claim's unrestricted form is false: the filter is never
consulted for the base itself, so when the base directory's own path is in
the exclusion set its descendants are still returned — see
`search_excluded_base_cex`.) -/
theorem search_respects_exclusions (f : ExclusionFilter) (root : Path)
    (es : DirEntries) (fs : List Path)
    (h : (PathExplorer.search ⟨root, f⟩ (some (FSNode.dir es))).2
        = Except.ok (IncludedFiles.mk fs)) :
    ∀ q ∈ fs, pathLT root q ∧ q ∉ f.filter
      ∧ (∀ x ∈ f.filter, pathLT root x → pathLT x q → False) := by
  intro q hq
  have h2 : (recurse_into f root es).2 = Except.ok fs := map_mk_ok _ _ h
  have hmain := recurse_ok_sound f root es fs h2 q hq
  obtain ⟨hlt, hprot⟩ := hmain
  refine ⟨hlt, ?_, ?_⟩
  · intro hqf
    exact hprot q hqf hlt (pathLE_refl q)
  · rintro x hx hrx ⟨w, hwne, hw⟩
    exact hprot x hx hrx ⟨w, hw⟩

theorem search_respects_exclusions_witness :
    (PathExplorer.search ⟨["b"], ⟨[["b", "x"]]⟩⟩ (some (FSNode.dir exTreeAX))).2
      = Except.ok (IncludedFiles.mk [["b", "a"]])
    ∧ (pathLT ["b"] ["b", "a"] ∧ ["b", "a"] ∉ [["b", "x"]]
       ∧ ∀ x ∈ [["b", "x"]], pathLT ["b"] x → pathLT x ["b", "a"] → False) :=
  ⟨rfl,
   search_respects_exclusions ⟨[["b", "x"]]⟩ ["b"] exTreeAX [["b", "a"]] rfl
     ["b", "a"] (by decide)⟩

/-- C1 counterexample to the claim as stated: with the base directory's
own path `["b"]` a member of the exclusion set, a successful search on the
directory base still returns `["b", "a"]`, a strict descendant of a
directory whose exact path is in the exclusion set. -/
theorem search_excluded_base_cex :
    (PathExplorer.search ⟨["b"], ⟨[["b"]]⟩⟩ (some (FSNode.dir exTreeA))).2
      = Except.ok (IncludedFiles.mk [["b", "a"]])
    ∧ ["b"] ∈ [["b"]] ∧ pathLT ["b"] ["b", "a"] :=
  ⟨rfl, by decide, ⟨["a"], by decide, rfl⟩⟩

theorem isErr_map {ε α β : Type} (g : α → β) (r : Except ε α) :
    isErr (r.map g) = isErr r := by
  cases r <;> rfl

mutual

theorem recurse_isErr : ∀ (f : ExclusionFilter) (p : Path) (es : DirEntries),
    isErr (recurse_into f p es).2 = badVisit f p es
  | f, p, DirEntries.nil => rfl
  | f, p, DirEntries.cons name readable node rest => by
    cases readable with
    | false => rfl
    | true =>
      by_cases hmem : (p ++ [name]) ∈ f.filter
      · simp only [recurse_into, badVisit, if_pos hmem]
        exact recurse_isErr f p rest
      · simp only [recurse_into, badVisit, if_neg hmem]
        rcases hve : visit_entry f (p ++ [name]) node with ⟨ms1, r1⟩
        have hbn := entry_isErr f (p ++ [name]) node
        rw [hve] at hbn
        cases r1 with
        | error e =>
          simp only [isErr] at hbn
          rw [← hbn]
          rfl
        | ok fs1 =>
          simp only [isErr] at hbn
          rw [← hbn]
          simp only [Bool.false_or]
          show isErr (((recurse_into f p rest).2).map (fun fs2 => fs1 ++ fs2))
            = badVisit f p rest
          rw [isErr_map]
          exact recurse_isErr f p rest

theorem entry_isErr : ∀ (f : ExclusionFilter) (entryPath : Path) (node : FSNode),
    isErr (visit_entry f entryPath node).2 = badNode f entryPath node
  | _, _, FSNode.file => rfl
  | f, ep, FSNode.dir entries => recurse_isErr f ep entries
  | _, _, FSNode.badDir => rfl
  | _, _, FSNode.special => rfl

end

/-- C7: a directory search returns an error exactly when the traversal
(not cut short by the exclusion filter) meets an entry that cannot be
read, a directory that cannot be listed, or an entry that is neither file
nor directory; the `Except` result is all-or-nothing, so no partial file
list accompanies a failure, and every error constructor carries the
offending path its message names. -/
theorem search_error_iff_bad_visit (f : ExclusionFilter) (root : Path)
    (es : DirEntries) :
    (∃ e, (PathExplorer.search ⟨root, f⟩ (some (FSNode.dir es))).2 = Except.error e)
      ↔ badVisit f root es = true := by
  have hk : isErr (PathExplorer.search ⟨root, f⟩ (some (FSNode.dir es))).2
      = badVisit f root es := by
    rw [show (PathExplorer.search ⟨root, f⟩ (some (FSNode.dir es))).2
        = ((recurse_into f root es).2).map IncludedFiles.mk from rfl]
    rw [isErr_map]
    exact recurse_isErr f root es
  constructor
  · rintro ⟨e, he⟩
    rw [← hk, he]
    rfl
  · intro hb
    rw [← hk] at hb
    rcases hr : (PathExplorer.search ⟨root, f⟩ (some (FSNode.dir es))).2 with e | v
    · exact ⟨e, rfl⟩
    · rw [hr] at hb
      simp [isErr] at hb

mutual

theorem recurse_files_eq : ∀ (f : ExclusionFilter) (p : Path) (es : DirEntries),
    (recurse_into f p es).2 = recurse_into_files f p es
  | _, _, DirEntries.nil => rfl
  | f, p, DirEntries.cons name readable node rest => by
    cases readable with
    | false => rfl
    | true =>
      by_cases hmem : (p ++ [name]) ∈ f.filter
      · simp only [recurse_into, recurse_into_files, if_pos hmem]
        exact recurse_files_eq f p rest
      · simp only [recurse_into, recurse_into_files, if_neg hmem]
        have hev := entry_files_eq f (p ++ [name]) node
        rcases hve : visit_entry f (p ++ [name]) node with ⟨ms1, r1⟩
        rw [hve] at hev
        rw [← hev]
        cases r1 with
        | error e => rfl
        | ok fs1 =>
          show ((recurse_into f p rest).2).map (fun fs2 => fs1 ++ fs2)
            = ((recurse_into_files f p rest).map (fun fs2 => fs1 ++ fs2))
          rw [recurse_files_eq f p rest]

theorem entry_files_eq : ∀ (f : ExclusionFilter) (entryPath : Path) (node : FSNode),
    (visit_entry f entryPath node).2 = visit_entry_files f entryPath node
  | _, _, FSNode.file => rfl
  | f, ep, FSNode.dir entries => recurse_files_eq f ep entries
  | _, _, FSNode.badDir => rfl
  | _, _, FSNode.special => rfl

end

mutual

theorem recurse_msgs_sound : ∀ (f : ExclusionFilter) (p : Path) (es : DirEntries),
    ∀ m ∈ (recurse_into f p es).1, m ∉ f.filter
  | f, p, DirEntries.nil => by
    intro m hm
    simp [recurse_into] at hm
  | f, p, DirEntries.cons name readable node rest => by
    cases readable with
    | false =>
      intro m hm
      simp [recurse_into] at hm
    | true =>
      intro m hm
      by_cases hmem : (p ++ [name]) ∈ f.filter
      · simp only [recurse_into, if_pos hmem] at hm
        exact recurse_msgs_sound f p rest m hm
      · simp only [recurse_into, if_neg hmem] at hm
        rcases hve : visit_entry f (p ++ [name]) node with ⟨ms1, r1⟩
        rw [hve] at hm
        cases r1 with
        | error e =>
          refine entry_msgs_sound f (p ++ [name]) node hmem m ?_
          rw [hve]
          exact hm
        | ok fs1 =>
          rcases List.mem_append.mp hm with hm1 | hm2
          · refine entry_msgs_sound f (p ++ [name]) node hmem m ?_
            rw [hve]
            exact hm1
          · exact recurse_msgs_sound f p rest m hm2

theorem entry_msgs_sound : ∀ (f : ExclusionFilter) (entryPath : Path) (node : FSNode),
    entryPath ∉ f.filter → ∀ m ∈ (visit_entry f entryPath node).1, m ∉ f.filter
  | f, ep, FSNode.file => by
    intro hnm m hm
    rw [List.mem_singleton.mp hm]
    exact hnm
  | f, ep, FSNode.dir entries => by
    intro hnm m hm
    rcases List.mem_cons.mp hm with hm1 | hm2
    · rw [hm1]
      exact hnm
    · exact recurse_msgs_sound f ep entries m hm2
  | f, ep, FSNode.badDir => by
    intro hnm m hm
    rw [List.mem_singleton.mp hm]
    exact hnm
  | f, ep, FSNode.special => by
    intro hnm m hm
    rw [List.mem_singleton.mp hm]
    exact hnm

end

mutual

theorem recurse_msgs_iff : ∀ (f : ExclusionFilter) (p : Path) (es : DirEntries) (m : Path),
    m ∈ (recurse_into f p es).1 ↔ visitsEntries f p es m = true
  | f, p, DirEntries.nil, m => by
    simp [recurse_into, visitsEntries]
  | f, p, DirEntries.cons name readable node rest, m => by
    cases readable with
    | false => simp [recurse_into, visitsEntries]
    | true =>
      by_cases hmem : (p ++ [name]) ∈ f.filter
      · simp only [recurse_into, visitsEntries, if_pos hmem]
        exact recurse_msgs_iff f p rest m
      · simp only [recurse_into, visitsEntries, if_neg hmem]
        have hbn := entry_isErr f (p ++ [name]) node
        have hent := entry_msgs_iff f (p ++ [name]) node m
        rcases hve : visit_entry f (p ++ [name]) node with ⟨ms1, r1⟩
        rw [hve] at hbn hent
        have hent2 : m ∈ ms1
            ↔ (m = p ++ [name] ∨ visitsNode f (p ++ [name]) node m = true) := hent
        cases r1 with
        | error e =>
          simp only [isErr] at hbn
          rw [← hbn]
          simp only [Bool.not_true, Bool.false_and, Bool.or_false]
          show m ∈ ms1
            ↔ ((m == p ++ [name]) || visitsNode f (p ++ [name]) node m) = true
          rw [hent2]
          simp [Bool.or_eq_true, beq_iff_eq]
        | ok fs1 =>
          simp only [isErr] at hbn
          rw [← hbn]
          simp only [Bool.not_false, Bool.true_and]
          show m ∈ ms1 ++ (recurse_into f p rest).1
            ↔ (((m == p ++ [name]) || visitsNode f (p ++ [name]) node m)
                || visitsEntries f p rest m) = true
          rw [List.mem_append, hent2, recurse_msgs_iff f p rest m]
          simp [Bool.or_eq_true, beq_iff_eq, or_assoc]

theorem entry_msgs_iff : ∀ (f : ExclusionFilter) (entryPath : Path) (node : FSNode)
    (m : Path), m ∈ (visit_entry f entryPath node).1
      ↔ (m = entryPath ∨ visitsNode f entryPath node m = true)
  | f, ep, FSNode.file, m => by
    simp [visit_entry, visitsNode]
  | f, ep, FSNode.dir entries, m => by
    simp only [visit_entry, visitsNode, List.mem_cons]
    rw [recurse_msgs_iff f ep entries m]
  | f, ep, FSNode.badDir, m => by
    simp [visit_entry, visitsNode]
  | f, ep, FSNode.special, m => by
    simp [visit_entry, visitsNode]

end

/-- C6 (amended): the progress messages emitted during a directory search
name exactly the visited directory entries that pass the exclusion filter:
every such entry emits a message naming its path, a path is named only if
it is such an entry — in particular an excluded entry is skipped *before*
the message call and emits none (the claim's `pre-filter` wording is
wrong, see `excluded_entry_no_message_cex`) — and the emission has no
effect on control flow or on the returned file list: the result equals
that of the same recursion with the emission deleted. -/
theorem progress_messages_post_filter (f : ExclusionFilter) (p : Path)
    (es : DirEntries) (m : Path) :
    (m ∈ (recurse_into f p es).1 ↔ visitsEntries f p es m = true)
    ∧ (m ∈ (recurse_into f p es).1 → m ∉ f.filter)
    ∧ (recurse_into f p es).2 = recurse_into_files f p es :=
  ⟨recurse_msgs_iff f p es m, recurse_msgs_sound f p es m, recurse_files_eq f p es⟩

theorem progress_messages_post_filter_witness :
    visitsEntries ⟨[["b", "x"]]⟩ ["b"] exTreeAXFiles ["b", "a"] = true
    ∧ ["b", "a"] ∈ (recurse_into ⟨[["b", "x"]]⟩ ["b"] exTreeAXFiles).1
    ∧ ["b", "a"] ∉ [["b", "x"]]
    ∧ (recurse_into ⟨[["b", "x"]]⟩ ["b"] exTreeAXFiles).2
        = recurse_into_files ⟨[["b", "x"]]⟩ ["b"] exTreeAXFiles := by
  have H := progress_messages_post_filter ⟨[["b", "x"]]⟩ ["b"] exTreeAXFiles ["b", "a"]
  exact ⟨by decide, H.1.mpr (by decide), by decide, H.2.2⟩

/-- C6 counterexample to the claim as stated: the directory `["b"]` has
exactly one visited entry, `["b", "a"]`, which the filter excludes; the
claim says every visited entry emits (pre-filter) a progress message
naming it, but the emitted message list is empty — the `continue` for an
excluded entry precedes the `set_progress_message` call. -/
theorem excluded_entry_no_message_cex :
    recurse_into ⟨[["b", "a"]]⟩ ["b"] exTreeA = ([], Except.ok []) :=
  rfl

/-- C5 counterexample to the claim as stated: the configured exclusion
list `{sub}` reaches `ExclusionFilter` verbatim (`SourceConfig::init`
does not join it with the base), while the traversal compares it against
the base-joined entry path `./root/sub`, so nothing matches and discovery
returns all three files rather than `{a.txt}` only. -/
theorem search_source_raw_exclusion_cex :
    (search_source
        (SourceConfig.init (some ⟨none, some [".", "root"], some [["sub"]]⟩) [".", "root"])
        (some exTreeSpecSub)).2
      = Except.ok (some (IncludedFiles.mk
          [[".", "root", "a.txt"], [".", "root", "sub", "b.txt"],
           [".", "root", "sub", "c.txt"]]))
    ∧ [[".", "root", "a.txt"], [".", "root", "sub", "b.txt"], [".", "root", "sub", "c.txt"]]
        ≠ [[".", "root", "a.txt"]] :=
  ⟨rfl, by decide⟩

/-- C5 (amended): exclusions are compared against base-joined entry
paths, so for the spec's tree `{a.txt, sub/b.txt, sub/c.txt}` discovery
returns exactly `{a.txt}` only when the exclusion entry is written as the
base-joined path `base ++ [sub]` (e.g. `./root/sub` for base `./root`);
the configured form `{sub}` excludes nothing (see
`search_source_raw_exclusion_cex`). -/
theorem search_source_base_joined_exclusion (base : Path) :
    (search_source ⟨false, base, [base ++ ["sub"]]⟩ (some exTreeSpecSub)).2
      = Except.ok (some (IncludedFiles.mk [base ++ ["a.txt"]])) := by
  have hne : ¬(base ++ ["a.txt"] = base ++ ["sub"]) := by
    intro hcontra
    have h2 := append_cancel_left_path base _ _ hcontra
    exact absurd h2 (by decide)
  simp [search_source, PathExplorer.search, visit_dirs, ExclusionFilter.fromList,
    recurse_into, visit_entry, exTreeSpecSub, hne, Except.map]

theorem hexDigit_mem (n : Nat) : hexDigit n ∈ hexAlphabet := by
  unfold hexDigit
  split <;> decide

theorem hexByte_mem (b : Nat) : ∀ c ∈ hexByte b, c ∈ hexAlphabet := by
  intro c hc
  simp only [hexByte, List.mem_cons, List.not_mem_nil, or_false] at hc
  rcases hc with h | h <;> (rw [h]; exact hexDigit_mem _)

theorem hexOfBytes_mem (bs : List Nat) : ∀ c ∈ hexOfBytes bs, c ∈ hexAlphabet := by
  intro c hc
  simp only [hexOfBytes, List.mem_flatMap] at hc
  obtain ⟨b, _, hcb⟩ := hc
  exact hexByte_mem b c hcb

theorem hexOfBytes_length (bs : List Nat) : (hexOfBytes bs).length = 2 * bs.length := by
  induction bs with
  | nil => rfl
  | cons b bs ih =>
    show (hexByte b ++ hexOfBytes bs).length = 2 * (bs.length + 1)
    rw [List.length_append, ih]
    simp [hexByte]
    omega

theorem sha256Bytes_length (msg : List Nat) : (sha256Bytes msg).length = 32 := rfl

theorem archive_name_ne_checksum_name (cfgName : String) :
    cfgName ++ ".tar.gz" ≠ cfgName ++ ".tar.gz" ++ ".sha256" := by
  intro hcontra
  have hlen := congrArg String.length hcontra
  have h7 : (".sha256" : String).length = 7 := rfl
  simp only [String.length_append] at hlen
  omega

/-- C3: on the success path of `make_archive` over a fresh output
directory, the checksum sidecar holds exactly the lowercase hex SHA-256
digest of the archive file's recorded bytes, then two literal spaces,
then the archive filename, with nothing after it; the digest string has
64 characters drawn from the lowercase hex alphabet, and it is computed
from the very byte list stored as the archive file, so an independent
recomputation over those bytes yields the recorded digest. -/
theorem make_archive_checksum_sidecar (cfgName : String) (all_files : RumkinstFiles)
    (ok : Path → Bool) (env : GzEnv) (entries : List Path)
    (hw : all_files.write_archive ok = Except.ok entries)
    (hfin : env.finishOk = true) (hseek : env.seekOk = true)
    (hcopy : env.copyOk = true) (hwck : env.writeChecksumOk = true) :
    make_archive cfgName all_files ok env []
      = ([(cfgName ++ ".tar.gz", FileData.bytes (env.encode entries)),
          (cfgName ++ ".tar.gz" ++ ".sha256",
           FileData.text (hexOfBytes (sha256Bytes (env.encode entries))
             ++ twoSpaces ++ (cfgName ++ ".tar.gz").data))],
         Except.ok ())
    ∧ (hexOfBytes (sha256Bytes (env.encode entries))).length = 64
    ∧ ∀ c ∈ hexOfBytes (sha256Bytes (env.encode entries)), c ∈ hexAlphabet := by
  have happ := archive_name_ne_checksum_name cfgName
  have hne : (cfgName ++ ".tar.gz" == cfgName ++ ".tar.gz" ++ ".sha256") = false :=
    beq_eq_false_iff_ne.mpr happ
  have hne2 : (cfgName ++ ".tar.gz" ++ ".sha256" == cfgName ++ ".tar.gz") = false :=
    beq_eq_false_iff_ne.mpr (Ne.symm happ)
  refine ⟨?_, ?_, hexOfBytes_mem _⟩
  · unfold make_archive
    rw [hw]
    simp [containsName, setFile, hne, hne2, happ, (Ne.symm happ), hfin, hseek, hcopy, hwck]
  · rw [hexOfBytes_length, sha256Bytes_length]

theorem make_archive_checksum_sidecar_witness :
    (RumkinstFiles.write_archive ⟨none, none, none⟩ (fun _ => true) = Except.ok [])
    ∧ (make_archive ("pkg2") ⟨none, none, none⟩ (fun _ => true) exEnv []
        = ([("pkg2" ++ ".tar.gz", FileData.bytes (exEnv.encode [])),
            ("pkg2" ++ ".tar.gz" ++ ".sha256",
             FileData.text (hexOfBytes (sha256Bytes (exEnv.encode []))
               ++ twoSpaces ++ ("pkg2" ++ ".tar.gz").data))],
           Except.ok ())
       ∧ (hexOfBytes (sha256Bytes (exEnv.encode []))).length = 64
       ∧ ∀ c ∈ hexOfBytes (sha256Bytes (exEnv.encode [])), c ∈ hexAlphabet) :=
  ⟨rfl,
   make_archive_checksum_sidecar ("pkg2") ⟨none, none, none⟩ (fun _ => true) exEnv []
     rfl rfl rfl rfl rfl⟩

/-- C10: `make_archive` creates the (empty) checksum sidecar with
create-new semantics before any archive content is written, so when the
archive write or the gzip finalization fails the run errors out with the
empty `<name>.tar.gz.sha256` file (and the partial archive file) already
present in the output directory — the filesystem state is not unchanged
on error. -/
theorem failed_archive_write_leaves_checksum (cfgName : String)
    (all_files : RumkinstFiles) (ok : Path → Bool) (env : GzEnv)
    (h : (∃ p, all_files.write_archive ok = Except.error p) ∨ env.finishOk = false) :
    ∃ e, make_archive cfgName all_files ok env []
      = ([(cfgName ++ ".tar.gz", FileData.bytes env.partialBytes),
          (cfgName ++ ".tar.gz" ++ ".sha256", FileData.text [])],
         Except.error e) := by
  have happ := archive_name_ne_checksum_name cfgName
  have hne : (cfgName ++ ".tar.gz" == cfgName ++ ".tar.gz" ++ ".sha256") = false :=
    beq_eq_false_iff_ne.mpr happ
  have hne2 : (cfgName ++ ".tar.gz" ++ ".sha256" == cfgName ++ ".tar.gz") = false :=
    beq_eq_false_iff_ne.mpr (Ne.symm happ)
  rcases hw : all_files.write_archive ok with p | entries
  · refine ⟨MakeError.writeArchiveFailed p, ?_⟩
    unfold make_archive
    rw [hw]
    simp [containsName, setFile, hne, hne2, happ, (Ne.symm happ)]
  · have hfin : env.finishOk = false := by
      rcases h with ⟨p, hp⟩ | hfin
      · rw [hw] at hp
        exact absurd hp (by simp)
      · exact hfin
    refine ⟨MakeError.finishFailed, ?_⟩
    unfold make_archive
    rw [hw]
    simp [containsName, setFile, hne, hne2, happ, (Ne.symm happ), hfin]

theorem failed_archive_write_leaves_checksum_witness :
    ((∃ p, RumkinstFiles.write_archive ⟨some (IncludedFiles.mk [["x"]]), none, none⟩
        (fun _ => false) = Except.error p) ∨ exEnv.finishOk = false)
    ∧ ∃ e, make_archive ("pkg") ⟨some (IncludedFiles.mk [["x"]]), none, none⟩
        (fun _ => false) exEnv []
      = ([("pkg" ++ ".tar.gz", FileData.bytes exEnv.partialBytes),
          ("pkg" ++ ".tar.gz" ++ ".sha256", FileData.text [])],
         Except.error e) :=
  ⟨Or.inl ⟨["x"], rfl⟩,
   failed_archive_write_leaves_checksum ("pkg")
     ⟨some (IncludedFiles.mk [["x"]]), none, none⟩ (fun _ => false) exEnv
     (Or.inl ⟨["x"], rfl⟩)⟩

end Rumkinst
